import Mathlib

/-!
Shallow embedding of the crash-game analytics engine
(`src/backend/api/game_stats.py`, class `CrashGameCalculator`) over exact
rationals, together with theorems settling the frozen claims about it.
Multipliers and thresholds are modelled as `ℚ`; Python's `round` is modelled
as exact decimal rounding with ties to even; the sample standard deviation
(the one square root in the module) lives in `ℝ`. The only fallible
operation, the moon scan of `analyze_crashes`, returns `Except`.
-/

namespace SpacexyTracker

/-- Timestamps are opaque to the analytics engine except for their hour of
day (0–23), the only component `analyze_hourly_patterns` reads. -/
structure Timestamp where
  hour : Fin 24
  deriving DecidableEq, Repr

/-- Configurable thresholds for crash analysis (source: `CrashThresholds`,
nine ordered cut points). -/
structure CrashThresholds where
  instant_crash : ℚ
  quick_crash : ℚ
  early_crash : ℚ
  good_round : ℚ
  great_round : ℚ
  big_win : ℚ
  huge_win : ℚ
  mega_win : ℚ
  moon : ℚ
  deriving DecidableEq, Repr

/-- The default threshold values of the source model
(1.10, 1.50, 2.00, 3.00, 5.00, 10, 50, 100, 1000). -/
def defaultThresholds : CrashThresholds :=
  ⟨11/10, 3/2, 2, 3, 5, 10, 50, 100, 1000⟩

/-- The spec's validity condition on a Threshold Set: positive and strictly
increasing in the order instant < quick < early < good < great < big < huge
< mega < moon. -/
def ValidThresholds (t : CrashThresholds) : Prop :=
  0 < t.instant_crash ∧ t.instant_crash < t.quick_crash ∧
    t.quick_crash < t.early_crash ∧ t.early_crash < t.good_round ∧
    t.good_round < t.great_round ∧ t.great_round < t.big_win ∧
    t.big_win < t.huge_win ∧ t.huge_win < t.mega_win ∧ t.mega_win < t.moon

instance (t : CrashThresholds) : Decidable (ValidThresholds t) := by
  unfold ValidThresholds; infer_instance

/-- Rounding of a rational to the nearest integer with ties to even, the
tie-breaking rule of Python's builtin `round`. -/
def rhalfEven (q : ℚ) : ℤ :=
  if q - Rat.floor q < 1/2 then Rat.floor q
  else if 1/2 < q - Rat.floor q then Rat.floor q + 1
  else if Rat.floor q % 2 = 0 then Rat.floor q else Rat.floor q + 1

/-- Python's `round(x, d)` on exact rationals: round to `d` decimal places,
ties to even. -/
def roundDp (d : ℕ) (q : ℚ) : ℚ := (rhalfEven (q * 10 ^ d) : ℚ) / 10 ^ d

/-- Rounding of a real to the nearest integer with ties to even (used only
for the standard-deviation field, which involves a square root). -/
noncomputable def rhalfEvenR (x : ℝ) : ℤ :=
  if x - ⌊x⌋ < 1/2 then ⌊x⌋
  else if 1/2 < x - ⌊x⌋ then ⌊x⌋ + 1
  else if ⌊x⌋ % 2 = 0 then ⌊x⌋ else ⌊x⌋ + 1

/-- Python's `round(x, d)` on reals. -/
noncomputable def roundDpR (d : ℕ) (x : ℝ) : ℝ := (rhalfEvenR (x * 10 ^ d) : ℝ) / 10 ^ d

/-- `statistics.mean`: arithmetic mean (callers guard non-emptiness). -/
def mean (ms : List ℚ) : ℚ := ms.sum / ms.length

/-- `statistics.median`: middle element of the sorted list, or the mean of
the two middle elements when the length is even. -/
def median (ms : List ℚ) : ℚ :=
  let s := ms.mergeSort fun a b => decide (a ≤ b)
  if ms.length % 2 = 1 then s.getD (ms.length / 2) 0
  else (s.getD (ms.length / 2 - 1) 0 + s.getD (ms.length / 2) 0) / 2

/-- `statistics.stdev`: sample standard deviation (Bessel's correction). -/
noncomputable def sampleStdev (ms : List ℚ) : ℝ :=
  Real.sqrt (((ms.map fun m => ((m : ℝ) - (mean ms : ℝ)) ^ 2).sum) / (ms.length - 1))

/-- `max` of a Python list of floats (the empty case is unreachable in the
source, which guards non-emptiness). -/
def listMax : List ℚ → ℚ
  | [] => 0
  | m :: rest => rest.foldl max m

/-- `min` of a Python list of floats (empty case unreachable in source). -/
def listMin : List ℚ → ℚ
  | [] => 0
  | m :: rest => rest.foldl min m

/-- Result record of `analyze_crashes` (source: `CrashAnalysis`). -/
structure CrashAnalysis where
  total_rounds : ℕ
  average_crash : ℚ
  median_crash : ℚ
  std_deviation : ℝ
  instant_crash_rate : ℚ
  quick_crash_rate : ℚ
  early_crash_rate : ℚ
  good_round_rate : ℚ
  great_round_rate : ℚ
  big_win_rate : ℚ
  huge_win_rate : ℚ
  mega_win_rate : ℚ
  moon_rate : ℚ
  highest_crash : ℚ
  lowest_crash : ℚ
  last_moon : Option Timestamp
  rounds_since_moon : Option ℕ

/-- The `for i, m in enumerate(multipliers): if m >= t.moon: ... break` scan
of `analyze_crashes`: the first moon's timestamp and index, scanning from
index `i`; the unguarded `timestamps[i]` access fails out of range. -/
def moonScanLoop (moon : ℚ) (timestamps : List Timestamp) :
    ℕ → List ℚ → Except String (Option Timestamp × Option ℕ)
  | _, [] => .ok (none, none)
  | i, m :: rest =>
    if moon ≤ m then
      match timestamps[i]? with
      | some ts => .ok (some ts, some i)
      | none => .error "list index out of range"
    else moonScanLoop moon timestamps (i + 1) rest

/-- Source `analyze_crashes`: crash-point analysis. `timestamps = none`
models the Python default `timestamps=None`; the empty list is likewise
falsy for the `if timestamps:` guard. -/
noncomputable def analyze_crashes (t : CrashThresholds) (multipliers : List ℚ)
    (timestamps : Option (List Timestamp)) : Except String CrashAnalysis :=
  if multipliers = [] then
    .ok ⟨0, 0, 0, 0, 0, 0, 0, 0, 0, 0, 0, 0, 0, 0, 0, none, none⟩
  else
    let n : ℚ := multipliers.length
    let instant := (multipliers.countP fun m => decide (m < t.instant_crash)) / n * 100
    let quick := (multipliers.countP fun m => decide (m < t.quick_crash)) / n * 100
    let early := (multipliers.countP fun m => decide (m < t.early_crash)) / n * 100
    let good := (multipliers.countP fun m => decide (t.good_round ≤ m)) / n * 100
    let great := (multipliers.countP fun m => decide (t.great_round ≤ m)) / n * 100
    let big := (multipliers.countP fun m => decide (t.big_win ≤ m)) / n * 100
    let huge := (multipliers.countP fun m => decide (t.huge_win ≤ m)) / n * 100
    let mega := (multipliers.countP fun m => decide (t.mega_win ≤ m)) / n * 100
    let moon := (multipliers.countP fun m => decide (t.moon ≤ m)) / n * 100
    let scan : Except String (Option Timestamp × Option ℕ) :=
      match timestamps with
      | none => .ok (none, none)
      | some tss => if tss = [] then .ok (none, none) else moonScanLoop t.moon tss 0 multipliers
    match scan with
    | .error e => .error e
    | .ok (last_moon_time, rounds_since) =>
      .ok { total_rounds := multipliers.length
            average_crash := roundDp 4 (mean multipliers)
            median_crash := roundDp 4 (median multipliers)
            std_deviation :=
              roundDpR 4 (if 1 < multipliers.length then sampleStdev multipliers else 0)
            instant_crash_rate := roundDp 2 instant
            quick_crash_rate := roundDp 2 quick
            early_crash_rate := roundDp 2 early
            good_round_rate := roundDp 2 good
            great_round_rate := roundDp 2 great
            big_win_rate := roundDp 2 big
            huge_win_rate := roundDp 2 huge
            mega_win_rate := roundDp 2 mega
            moon_rate := roundDp 4 moon
            highest_crash := listMax multipliers
            lowest_crash := listMin multipliers
            last_moon := last_moon_time
            rounds_since_moon := rounds_since }

/-- Result record of `calculate_quick_crash_alert` (source:
`QuickCrashAlert`). -/
structure QuickCrashAlert where
  last_10_quick_crashes : ℕ
  last_20_quick_crashes : ℕ
  last_50_quick_crashes : ℕ
  alert_level : String
  consecutive_quick_crashes : ℕ
  deriving DecidableEq, Repr

/-- The `for m in multipliers: if m < quick: consecutive += 1 else: break`
loop of `calculate_quick_crash_alert`. -/
def consecutiveQuick (quick : ℚ) : List ℚ → ℕ
  | [] => 0
  | m :: rest => if m < quick then consecutiveQuick quick rest + 1 else 0

/-- Source `calculate_quick_crash_alert`: windows of the 10/20/50 most
recent rounds, the current run of quick crashes, and the alert level. -/
def calculate_quick_crash_alert (t : CrashThresholds) (multipliers : List ℚ) :
    QuickCrashAlert :=
  let last_10 := (multipliers.take 10).countP fun m => decide (m < t.quick_crash)
  let last_20 := (multipliers.take 20).countP fun m => decide (m < t.quick_crash)
  let last_50 := (multipliers.take 50).countP fun m => decide (m < t.quick_crash)
  let consecutive := consecutiveQuick t.quick_crash multipliers
  let level :=
    if 5 ≤ consecutive ∨ 7 ≤ last_10 then "critical"
    else if 3 ≤ consecutive ∨ 5 ≤ last_10 then "high"
    else if 4 ≤ last_10 ∨ 10 ≤ last_20 then "medium"
    else "low"
  ⟨last_10, last_20, last_50, level, consecutive⟩

/-- The list comprehension
`[i for i, m in enumerate(multipliers) if m >= t.moon]`, with the running
`enumerate` index made explicit. -/
def moonIndicesAux (moon : ℚ) : ℕ → List ℚ → List ℕ
  | _, [] => []
  | i, m :: rest =>
    if moon ≤ m then i :: moonIndicesAux moon (i + 1) rest
    else moonIndicesAux moon (i + 1) rest

/-- Positions (most-recent-first indices) of moon outcomes. -/
def moon_indices (moon : ℚ) (multipliers : List ℚ) : List ℕ :=
  moonIndicesAux moon 0 multipliers

/-- Result record of `track_moons` (source: `MoonTracker`). -/
structure MoonTracker where
  total_moons : ℕ
  last_moon_value : Option ℚ
  last_moon_time : Option Timestamp
  rounds_since_moon : ℕ
  average_rounds_between_moons : Option ℚ
  moon_probability : ℚ
  deriving DecidableEq, Repr

/-- Source `track_moons`: moon occurrence tracking. The timestamp access is
bounds-guarded in the source (`if timestamps and last_idx < len(timestamps)`),
so the operation is total; the final `round(avg_between, 1) if avg_between
else None` tests Python truthiness, hence the explicit zero test. -/
def track_moons (t : CrashThresholds) (multipliers : List ℚ)
    (timestamps : Option (List Timestamp)) : MoonTracker :=
  let idxs := moon_indices t.moon multipliers
  let total_moons := idxs.length
  let last_value : Option ℚ :=
    match idxs.head? with
    | none => none
    | some last_idx => multipliers[last_idx]?
  let last_time : Option Timestamp :=
    match idxs.head? with
    | none => none
    | some last_idx =>
      match timestamps with
      | none => none
      | some tss => if tss ≠ [] ∧ last_idx < tss.length then tss[last_idx]? else none
  let rounds_since : ℕ :=
    match idxs.head? with
    | none => multipliers.length
    | some last_idx => last_idx
  let gaps : List ℤ := List.zipWith (fun a b => (a : ℤ) - (b : ℤ)) idxs idxs.tail
  let avg_between : Option ℚ :=
    if 1 < idxs.length then some ((gaps.map fun g => (g : ℚ)).sum / gaps.length) else none
  let probability : ℚ :=
    if multipliers ≠ [] then (total_moons : ℚ) / multipliers.length * 100 else 0
  ⟨total_moons, last_value, last_time, rounds_since,
   (match avg_between with
    | none => none
    | some v => if v = 0 then none else some (roundDp 1 v)),
   roundDp 4 probability⟩

/-- Result record of `optimize_cashout` (source: `CashoutOptimizer`). -/
structure CashoutOptimizer where
  target_multiplier : ℚ
  win_rate : ℚ
  expected_value : ℚ
  risk_reward_ratio : ℚ
  recommended : Bool
  deriving DecidableEq, Repr

/-- The default target list `[1.5, 2.0, 2.5, 3.0, 4.0, 5.0, 10.0, 20.0,
50.0]` substituted when `targets` is falsy (None or empty). -/
def defaultTargets : List ℚ := [3/2, 2, 5/2, 3, 4, 5, 10, 20, 50]

/-- Source `optimize_cashout`: per-target win rate, expected value,
risk/reward ratio and recommendation flag. -/
def optimize_cashout (multipliers : List ℚ) (targets : Option (List ℚ)) :
    List CashoutOptimizer :=
  let targets' :=
    match targets with
    | none => defaultTargets
    | some l => if l = [] then defaultTargets else l
  if multipliers.length = 0 then []
  else
    targets'.map fun target =>
      let wins := multipliers.countP fun m => decide (target ≤ m)
      let win_rate : ℚ := (wins : ℚ) / multipliers.length * 100
      let ev := win_rate / 100 * target - (1 - win_rate / 100)
      let risk_reward := if 0 < win_rate then target / (100 / win_rate) else 0
      let recommended := decide (9/10 < ev) && decide (30 ≤ win_rate)
      ⟨target, roundDp 2 win_rate, roundDp 4 ev, roundDp 4 risk_reward, recommended⟩

/-- One entry of the hourly statistics list built by
`analyze_hourly_patterns`. -/
structure HourStat where
  hour : Fin 24
  average : ℚ
  rounds : ℕ
  big_win_rate : ℚ
  deriving DecidableEq, Repr

/-- The bucket `hourly[h]`: multipliers whose timestamp falls in hour `h`,
in encounter order. -/
def hourly_bucket (rounds : List (ℚ × Timestamp)) (h : Fin 24) : List ℚ :=
  (rounds.filter fun r => decide (r.2.hour = h)).map Prod.fst

/-- The `hourly_stats` list: one entry per hour with at least one
observation, for hours 0..23 in order. -/
def hourly_stats (rounds : List (ℚ × Timestamp)) : List HourStat :=
  (List.finRange 24).filterMap fun h =>
    let b := hourly_bucket rounds h
    if b = [] then none
    else
      some ⟨h, roundDp 4 (mean b), b.length,
        roundDp 2 (((b.countP fun m => decide (10 ≤ m)) : ℚ) / b.length * 100)⟩

/-- `sorted(hourly_stats, key=..., reverse=True)`: stable sort by average,
descending (Python's sort is stable; `reverse=True` reverses comparisons,
not the list, so equal keys keep encounter order). -/
def sorted_hourly_stats (rounds : List (ℚ × Timestamp)) : List HourStat :=
  (hourly_stats rounds).mergeSort fun a b => decide (b.average ≤ a.average)

/-- Source `analyze_hourly_patterns`: best three and worst three hours. -/
def analyze_hourly_patterns (rounds : List (ℚ × Timestamp)) :
    List HourStat × List HourStat :=
  let ss := sorted_hourly_stats rounds
  (if 3 ≤ ss.length then ss.take 3 else ss,
   if 3 ≤ ss.length then (ss.drop (ss.length - 3)).reverse else [])

/-- The mutable scan state of the historical-streak loop in
`calculate_streaks`. -/
structure StreakState where
  below_streaks : List ℕ
  above_streaks : List ℕ
  current_below : ℕ
  current_above : ℕ
  deriving DecidableEq, Repr

/-- One iteration of the historical-streak loop: extend the run on the
element's side and close the opposite run if one was open. -/
def streakStep (threshold : ℚ) (s : StreakState) (m : ℚ) : StreakState :=
  if m < threshold then
    ⟨s.below_streaks,
     if 0 < s.current_above then s.above_streaks ++ [s.current_above] else s.above_streaks,
     s.current_below + 1, 0⟩
  else
    ⟨if 0 < s.current_below then s.below_streaks ++ [s.current_below] else s.below_streaks,
     s.above_streaks, 0, s.current_above + 1⟩

/-- The whole historical-streak scan of `calculate_streaks`. -/
def streakScan (threshold : ℚ) (multipliers : List ℚ) : StreakState :=
  multipliers.foldl (streakStep threshold) ⟨[], [], 0, 0⟩

/-- The current-streak loop of `calculate_streaks`: length of the prefix on
which `p` holds. -/
def currentRun (p : ℚ → Bool) : List ℚ → ℕ
  | [] => 0
  | m :: rest => if p m then currentRun p rest + 1 else 0

/-- `max(runs)` guarded by emptiness, as in the streak history report. -/
def natListMax : List ℕ → ℕ
  | [] => 0
  | r :: rest => rest.foldl max r

/-- Per-side streak history report (`max`/`average`/`total`). -/
structure StreakSideStats where
  max : ℕ
  average : ℚ
  total : ℕ
  deriving DecidableEq, Repr

/-- The per-side dictionary of the streak history. -/
def sideStats (runs : List ℕ) : StreakSideStats :=
  ⟨if runs = [] then 0 else natListMax runs,
   if runs = [] then 0 else roundDp 2 (((runs.map fun r => (r : ℚ)).sum) / runs.length),
   runs.length⟩

/-- The `current_streak` dictionary of `calculate_streaks`. -/
structure CurrentStreak where
  type : String
  count : ℕ
  threshold : ℚ
  deriving DecidableEq, Repr

/-- The `streak_history` dictionary of `calculate_streaks`. -/
structure StreakHistory where
  below : StreakSideStats
  above : StreakSideStats
  deriving DecidableEq, Repr

/-- Source `calculate_streaks`: current streak and historical streaks. -/
def calculate_streaks (multipliers : List ℚ) (threshold : ℚ) :
    CurrentStreak × StreakHistory :=
  let current_type :=
    match multipliers with
    | [] => "above"
    | m :: _ => if m < threshold then "below" else "above"
  let current_count := currentRun
    (fun m => decide ((current_type = "below" ∧ m < threshold) ∨
      (current_type = "above" ∧ threshold ≤ m))) multipliers
  let s := streakScan threshold multipliers
  (⟨current_type, current_count, threshold⟩,
   ⟨sideStats s.below_streaks, sideStats s.above_streaks⟩)

/-!
Spec-side definitions. These restate quantities in the words of the
specification, independently of the loop-style source embedding above; the
confirmed functional-correctness claims equate the two.
-/

/-- Modelled from the spec (§4.2): the alert classification, first match
wins, with the current run as the below-threshold prefix of the sequence
and the window counts over the 10/20 most recent outcomes. -/
def specAlertLevel (t : CrashThresholds) (ms : List ℚ) : String :=
  let run := (ms.takeWhile fun m => decide (m < t.quick_crash)).length
  let c10 := (ms.take 10).countP fun m => decide (m < t.quick_crash)
  let c20 := (ms.take 20).countP fun m => decide (m < t.quick_crash)
  if 5 ≤ run ∨ 7 ≤ c10 then "critical"
  else if 3 ≤ run ∨ 5 ≤ c10 then "high"
  else if 4 ≤ c10 ∨ 10 ≤ c20 then "medium"
  else "low"

/-- Modelled from the spec (§4.4, claim C6): the per-target cashout
fragment, with the risk/reward ratio written as `t·p/100` and the
recommendation as the conjunction `ev > 0.9 ∧ p ≥ 30`. -/
def specCashoutFragment (ms : List ℚ) (target : ℚ) : CashoutOptimizer :=
  let p : ℚ := ((ms.countP fun m => decide (target ≤ m)) : ℚ) / ms.length * 100
  let ev := p / 100 * target - (1 - p / 100)
  ⟨target, roundDp 2 p, roundDp 4 ev, roundDp 4 (target * p / 100),
   decide (9/10 < ev ∧ 30 ≤ p)⟩

/-- The most recent moon position as the spec describes it: the first index
(scanning from index 0) whose multiplier is at or above the moon threshold. -/
def firstMoonIdx (moon : ℚ) (ms : List ℚ) : Option ℕ :=
  ms.findIdx? fun m => decide (moon ≤ m)

/-- The all-zero analysis record returned for an empty sequence. -/
def emptyAnalysis : CrashAnalysis :=
  ⟨0, 0, 0, 0, 0, 0, 0, 0, 0, 0, 0, 0, 0, 0, 0, none, none⟩

/-- The analysis record produced on the singleton sequence `[1]` with the
default thresholds (used to instantiate hypotheses at a concrete input). -/
noncomputable def oneRoundAnalysis : CrashAnalysis :=
  (analyze_crashes defaultThresholds [1] none).toOption.getD emptyAnalysis

/-!
General lemmas about the rounding function.
-/

/-- The executable floor used in `rhalfEven` agrees with `Int.floor`. -/
lemma ratFloor_eq_intFloor (q : ℚ) : (Rat.floor q : ℤ) = ⌊q⌋ := by
  rw [Rat.floor_def', Rat.floor_def]

lemma rhalfEven_eq_ite (q : ℚ) :
    rhalfEven q =
      if q - ⌊q⌋ < 1/2 then ⌊q⌋
      else if 1/2 < q - ⌊q⌋ then ⌊q⌋ + 1
      else if ⌊q⌋ % 2 = 0 then ⌊q⌋ else ⌊q⌋ + 1 := by
  unfold rhalfEven
  rw [ratFloor_eq_intFloor]

lemma floor_le_rhalfEven (q : ℚ) : ⌊q⌋ ≤ rhalfEven q := by
  rw [rhalfEven_eq_ite]
  split_ifs <;> omega

lemma rhalfEven_le_floor_add_one (q : ℚ) : rhalfEven q ≤ ⌊q⌋ + 1 := by
  rw [rhalfEven_eq_ite]
  split_ifs <;> omega

lemma rhalfEven_mono {p q : ℚ} (h : p ≤ q) : rhalfEven p ≤ rhalfEven q := by
  have hf : ⌊p⌋ ≤ ⌊q⌋ := Int.floor_mono h
  rcases lt_or_eq_of_le hf with hlt | heq
  · calc rhalfEven p ≤ ⌊p⌋ + 1 := rhalfEven_le_floor_add_one p
      _ ≤ ⌊q⌋ := by omega
      _ ≤ rhalfEven q := floor_le_rhalfEven q
  · have hfl : ((⌊p⌋ : ℚ)) = (⌊q⌋ : ℚ) := by rw [heq]
    rw [rhalfEven_eq_ite, rhalfEven_eq_ite, ← heq]
    have hd : p - ⌊p⌋ ≤ q - ⌊p⌋ := by linarith
    have hq' : q - (⌊p⌋ : ℚ) = q - ⌊q⌋ := by rw [hfl]
    rw [← hq'] at *
    split_ifs <;> first | omega | linarith

lemma roundDp_mono (d : ℕ) {p q : ℚ} (h : p ≤ q) : roundDp d p ≤ roundDp d q := by
  unfold roundDp
  have h10 : (0 : ℚ) < 10 ^ d := by positivity
  have hm : rhalfEven (p * 10 ^ d) ≤ rhalfEven (q * 10 ^ d) :=
    rhalfEven_mono (mul_le_mul_of_nonneg_right h (le_of_lt h10))
  have : ((rhalfEven (p * 10 ^ d) : ℚ)) ≤ (rhalfEven (q * 10 ^ d) : ℚ) := by exact_mod_cast hm
  exact (div_le_div_right h10).mpr this

lemma rhalfEven_eq_of_lt {q : ℚ} {f : ℤ} (h1 : (f : ℚ) ≤ q) (h2 : q - f < 1/2) :
    rhalfEven q = f := by
  have hf : ⌊q⌋ = f := Int.floor_eq_iff.mpr ⟨h1, by push_cast; linarith⟩
  rw [rhalfEven_eq_ite, hf, if_pos h2]

lemma rhalfEven_eq_add_one_of_gt {q : ℚ} {f : ℤ} (h1 : 1/2 < q - f) (h2 : q < f + 1) :
    rhalfEven q = f + 1 := by
  have hf : ⌊q⌋ = f := Int.floor_eq_iff.mpr ⟨by linarith, by push_cast; linarith⟩
  rw [rhalfEven_eq_ite, hf, if_neg (by linarith), if_pos h1]

lemma roundDp_eq_of_lt (d : ℕ) {q : ℚ} {f : ℤ}
    (h1 : (f : ℚ) ≤ q * 10 ^ d) (h2 : q * 10 ^ d - f < 1/2) :
    roundDp d q = f / 10 ^ d := by
  unfold roundDp
  rw [rhalfEven_eq_of_lt h1 h2]

lemma roundDp_intCast (d : ℕ) (n : ℤ) : roundDp d (n : ℚ) = n := by
  have h10 : (0 : ℚ) < 10 ^ d := by positivity
  have h1 : ((n * 10 ^ d : ℤ) : ℚ) ≤ (n : ℚ) * 10 ^ d := by push_cast; ring_nf; exact le_refl _
  have h2 : (n : ℚ) * 10 ^ d - ((n * 10 ^ d : ℤ) : ℚ) < 1/2 := by push_cast; ring_nf; norm_num
  unfold roundDp
  rw [rhalfEven_eq_of_lt h1 h2]
  push_cast
  field_simp

lemma roundDp_zero (d : ℕ) : roundDp d 0 = 0 := by
  simpa using roundDp_intCast d 0

lemma roundDp_natCast (d n : ℕ) : roundDp d (n : ℚ) = n := by
  simpa using roundDp_intCast d n

lemma roundDpR_zero (d : ℕ) : roundDpR d 0 = 0 := by
  unfold roundDpR rhalfEvenR
  norm_num

/-!
Lemmas connecting the loop-style embeddings with their spec-side
descriptions.
-/

lemma consecutiveQuick_eq_takeWhile (q : ℚ) (ms : List ℚ) :
    consecutiveQuick q ms = (ms.takeWhile fun m => decide (m < q)).length := by
  induction ms with
  | nil => rfl
  | cons m rest ih =>
    by_cases h : m < q <;> simp [consecutiveQuick, List.takeWhile_cons, h, ih]

lemma consecutiveQuick_le_length (q : ℚ) (ms : List ℚ) :
    consecutiveQuick q ms ≤ ms.length := by
  induction ms with
  | nil => simp [consecutiveQuick]
  | cons m rest ih =>
    by_cases h : m < q <;> simp [consecutiveQuick, h] <;> omega

lemma min_consecutiveQuick_le_countP_take (q : ℚ) (ms : List ℚ) (k : ℕ) :
    min (consecutiveQuick q ms) k ≤ (ms.take k).countP fun m => decide (m < q) := by
  induction ms generalizing k with
  | nil => simp [consecutiveQuick]
  | cons m rest ih =>
    cases k with
    | zero => simp
    | succ k' =>
      by_cases h : m < q
      · have hc : consecutiveQuick q (m :: rest) = consecutiveQuick q rest + 1 := by
          simp [consecutiveQuick, h]
        rw [hc, List.take_succ_cons, List.countP_cons_of_pos _ _ (by simpa using h),
          Nat.succ_min_succ]
        exact Nat.succ_le_succ (ih k')
      · have hc : consecutiveQuick q (m :: rest) = 0 := by simp [consecutiveQuick, h]
        simp [hc]

/-!
Claim theorems.
-/

/-- C7: on the empty input sequence every operation returns its documented
zero/empty/default fragment — `analyze_crashes` an all-zero record,
`optimize_cashout` the empty list, `calculate_quick_crash_alert` zero counts
with level "low", `track_moons` zero moons and zero probability,
`calculate_streaks` the default "above"/0 current streak, and
`analyze_hourly_patterns` two empty lists. -/
theorem C7_empty_input_defaults (t : CrashThresholds) (ts : Option (List Timestamp))
    (targets : Option (List ℚ)) (threshold : ℚ) :
    analyze_crashes t [] ts = .ok emptyAnalysis ∧
    emptyAnalysis.total_rounds = 0 ∧ emptyAnalysis.average_crash = 0 ∧
    emptyAnalysis.highest_crash = 0 ∧ emptyAnalysis.lowest_crash = 0 ∧
    optimize_cashout [] targets = [] ∧
    calculate_quick_crash_alert t [] = ⟨0, 0, 0, "low", 0⟩ ∧
    track_moons t [] ts = ⟨0, none, none, 0, none, 0⟩ ∧
    (calculate_streaks [] threshold).1.type = "above" ∧
    (calculate_streaks [] threshold).1.count = 0 ∧
    analyze_hourly_patterns [] = ([], []) := by
  refine ⟨?_, rfl, rfl, rfl, rfl, ?_, ?_, ?_, ?_, ?_, ?_⟩
  · simp [analyze_crashes, emptyAnalysis]
  · simp [optimize_cashout]
  · simp [calculate_quick_crash_alert, consecutiveQuick]
  · simp [track_moons, moon_indices, moonIndicesAux, roundDp_zero]
  · simp [calculate_streaks]
  · simp [calculate_streaks, currentRun]
  · have hs : hourly_stats ([] : List (ℚ × Timestamp)) = [] := by
      simp [hourly_stats, hourly_bucket]
    simp [analyze_hourly_patterns, sorted_hourly_stats, hs]

/-- C4: the alert level returned by `calculate_quick_crash_alert` is exactly
the spec's four-level classification evaluated with first-match-wins
precedence (critical, high, medium, low) over the current run and the
last-10/last-20 quick-crash counts. -/
theorem C4_alert_level_precedence (t : CrashThresholds) (ms : List ℚ) :
    (calculate_quick_crash_alert t ms).alert_level = specAlertLevel t ms := by
  simp only [calculate_quick_crash_alert, specAlertLevel, consecutiveQuick_eq_takeWhile]

/-- C5: in `calculate_streaks` the completed below-run lengths, the
completed above-run lengths and the single still-open run account for every
element: their sums add up to `n`; at most one run is open at the end, and
the history `total` fields count only the completed runs. -/
theorem C5_streak_conservation (threshold : ℚ) (ms : List ℚ) :
    (streakScan threshold ms).below_streaks.sum +
      (streakScan threshold ms).above_streaks.sum +
      (streakScan threshold ms).current_below +
      (streakScan threshold ms).current_above = ms.length ∧
    ((streakScan threshold ms).current_below = 0 ∨
      (streakScan threshold ms).current_above = 0) ∧
    (calculate_streaks ms threshold).2.below.total =
      (streakScan threshold ms).below_streaks.length ∧
    (calculate_streaks ms threshold).2.above.total =
      (streakScan threshold ms).above_streaks.length := by
  refine ⟨?_, ?_, rfl, rfl⟩
  · have key : ∀ (l : List ℚ) (s : StreakState),
        (l.foldl (streakStep threshold) s).below_streaks.sum +
          (l.foldl (streakStep threshold) s).above_streaks.sum +
          (l.foldl (streakStep threshold) s).current_below +
          (l.foldl (streakStep threshold) s).current_above =
        s.below_streaks.sum + s.above_streaks.sum + s.current_below +
          s.current_above + l.length := by
      intro l
      induction l with
      | nil => intro s; simp
      | cons m rest ih =>
        intro s
        rw [List.foldl_cons, ih]
        simp only [List.length_cons]
        unfold streakStep
        by_cases h : m < threshold
        · rw [if_pos h]
          by_cases ha : 0 < s.current_above
          · simp only [if_pos ha, List.sum_append, List.sum_cons, List.sum_nil]
            omega
          · simp only [if_neg ha]
            omega
        · rw [if_neg h]
          by_cases hb : 0 < s.current_below
          · simp only [if_pos hb, List.sum_append, List.sum_cons, List.sum_nil]
            omega
          · simp only [if_neg hb]
            omega
    have := key ms ⟨[], [], 0, 0⟩
    simpa [streakScan] using this
  · have key : ∀ (l : List ℚ) (s : StreakState),
        (s.current_below = 0 ∨ s.current_above = 0) →
        ((l.foldl (streakStep threshold) s).current_below = 0 ∨
          (l.foldl (streakStep threshold) s).current_above = 0) := by
      intro l
      induction l with
      | nil => intro s hs; simpa using hs
      | cons m rest ih =>
        intro s _
        rw [List.foldl_cons]
        apply ih
        unfold streakStep
        by_cases h : m < threshold
        · rw [if_pos h]; right; rfl
        · rw [if_neg h]; left; rfl
    exact key ms ⟨[], [], 0, 0⟩ (Or.inl rfl)

/-- C1: on `[2000, 1, 2000]` with the default thresholds, `track_moons`
reports `average_rounds_between_moons = -2`, a negative value — the gap
comprehension subtracts the later-found (larger) index from the
earlier-found (smaller) one, contradicting the documented non-negative
rounds-between-moons distance. -/
theorem C1_moon_gap_negative :
    (track_moons defaultThresholds [2000, 1, 2000] none).average_rounds_between_moons =
      some (-2) ∧ ¬ ((0 : ℚ) ≤ -2) := by
  constructor
  · have h1 : defaultThresholds.moon ≤ (2000 : ℚ) := by norm_num [defaultThresholds]
    have h2 : ¬ defaultThresholds.moon ≤ (1 : ℚ) := by norm_num [defaultThresholds]
    have hround : roundDp 1 (-2 : ℚ) = -2 := by
      have := roundDp_intCast 1 (-2)
      push_cast at this
      simpa using this
    simp [track_moons, moon_indices, moonIndicesAux, h1, h2, hround]
  · norm_num

/-- C3 (amended): the current quick-crash run is at most `n`, its first ten
elements are all counted by the ten-round window (so
`min(consecutive, 10) ≤ last_10_quick_crashes`), and the run is 0 whenever
the most recent outcome is not a quick crash or the list is empty. The
original bound `consecutive ≤ min(n, last_10_quick_crashes)` fails once a
run exceeds the ten-round window. -/
theorem C3_quick_run_bounds (t : CrashThresholds) (ms : List ℚ) :
    (calculate_quick_crash_alert t ms).consecutive_quick_crashes ≤ ms.length ∧
    min (calculate_quick_crash_alert t ms).consecutive_quick_crashes 10 ≤
      (calculate_quick_crash_alert t ms).last_10_quick_crashes ∧
    ((∀ m, ms.head? = some m → ¬ m < t.quick_crash) →
      (calculate_quick_crash_alert t ms).consecutive_quick_crashes = 0) := by
  refine ⟨?_, ?_, ?_⟩
  · simpa [calculate_quick_crash_alert] using consecutiveQuick_le_length t.quick_crash ms
  · simpa [calculate_quick_crash_alert] using
      min_consecutiveQuick_le_countP_take t.quick_crash ms 10
  · intro h
    cases ms with
    | nil => simp [calculate_quick_crash_alert, consecutiveQuick]
    | cons m rest =>
      have hm := h m rfl
      simp [calculate_quick_crash_alert, consecutiveQuick, hm]

/-- C3 witness: at `[3, 1]` with the default thresholds the most recent
outcome is not a quick crash and the amended bounds hold, with a zero
current run. -/
theorem C3_quick_run_bounds_witness :
    (∀ m, ([3, 1] : List ℚ).head? = some m → ¬ m < defaultThresholds.quick_crash) ∧
    (calculate_quick_crash_alert defaultThresholds [3, 1]).consecutive_quick_crashes ≤
      ([3, 1] : List ℚ).length ∧
    (calculate_quick_crash_alert defaultThresholds [3, 1]).consecutive_quick_crashes = 0 := by
  have hh : ∀ m, ([3, 1] : List ℚ).head? = some m → ¬ m < defaultThresholds.quick_crash := by
    intro m hm
    simp only [List.head?_cons, Option.some.injEq] at hm
    subst hm
    norm_num [defaultThresholds]
  exact ⟨hh, (C3_quick_run_bounds defaultThresholds [3, 1]).1,
    (C3_quick_run_bounds defaultThresholds [3, 1]).2.2 hh⟩

/-- C3 counterexample: eleven consecutive quick crashes give a current run
of 11 but a ten-round window count of 10, violating the claimed bound
`consecutive ≤ min(n, last_10_quick_crashes)`. -/
theorem C3_counterexample :
    ¬ ((calculate_quick_crash_alert defaultThresholds
          (List.replicate 11 1)).consecutive_quick_crashes ≤
        min (List.replicate 11 (1 : ℚ)).length
          (calculate_quick_crash_alert defaultThresholds
            (List.replicate 11 1)).last_10_quick_crashes) := by
  have h1 : (1 : ℚ) < defaultThresholds.quick_crash := by norm_num [defaultThresholds]
  simp only [List.replicate, calculate_quick_crash_alert, List.take_cons, List.take_nil,
    List.countP_cons, List.countP_nil, consecutiveQuick, h1, if_pos, decide_eq_true_eq,
    List.length_cons, List.length_nil]
  norm_num [List.take, consecutiveQuick, h1]

/-- C6: on a non-empty sequence and non-empty target list, every fragment of
`optimize_cashout` matches the spec formulas — win rate `p` rounded to 2
decimals, expected value `(p/100)·t − (1 − p/100)` rounded to 4 decimals,
risk/reward ratio equal to `t·p/100` rounded to 4 decimals, and
`recommended` iff `ev > 0.9 ∧ p ≥ 30` — with fragments in input target
order. -/
theorem C6_optimize_cashout_fragments (ms : List ℚ) (targets : List ℚ)
    (hms : ms ≠ []) (hts : targets ≠ []) :
    optimize_cashout ms (some targets) = targets.map (specCashoutFragment ms) := by
  have hlen : ¬ ms.length = 0 := fun h => hms (List.length_eq_zero.mp h)
  simp only [optimize_cashout, if_neg hts, if_neg hlen]
  apply List.map_congr_left
  intro t _
  simp only [specCashoutFragment, CashoutOptimizer.mk.injEq, true_and]
  set p : ℚ := ((ms.countP fun m => decide (t ≤ m)) : ℚ) / ms.length * 100 with hp
  refine ⟨?_, ?_⟩
  · congr 1
    by_cases hp0 : 0 < p
    · rw [if_pos hp0, div_div_eq_mul_div]
    · have hnn : 0 ≤ p := by rw [hp]; positivity
      have : p = 0 := le_antisymm (not_lt.mp hp0) hnn
      rw [if_neg hp0, this]
      ring
  · rw [Bool.decide_and]

/-- C6 witness: the fragment equality at the concrete sequence `[2]` and
target list `[2]`. -/
theorem C6_optimize_cashout_fragments_witness :
    ([(2 : ℚ)] ≠ []) ∧ (([(2 : ℚ)]) ≠ []) ∧
    optimize_cashout [(2 : ℚ)] (some [2]) = [(2 : ℚ)].map (specCashoutFragment [2]) :=
  ⟨by simp, by simp, C6_optimize_cashout_fragments [2] [2] (by simp) (by simp)⟩

/-- C10: with `timestamps = None` or `timestamps = []`, `analyze_crashes`
returns `last_moon = None` and `rounds_since_moon = None` for every
multiplier list (the moon scan runs only when timestamps are supplied),
while the `rounds_since_moon` of `track_moons` never depends on the
timestamps. -/
theorem C10_moon_scan_needs_timestamps (t : CrashThresholds) (ms : List ℚ) :
    Except.map CrashAnalysis.last_moon (analyze_crashes t ms none) = .ok none ∧
    Except.map CrashAnalysis.rounds_since_moon (analyze_crashes t ms none) = .ok none ∧
    Except.map CrashAnalysis.last_moon (analyze_crashes t ms (some [])) = .ok none ∧
    Except.map CrashAnalysis.rounds_since_moon (analyze_crashes t ms (some [])) = .ok none ∧
    ∀ ts, (track_moons t ms ts).rounds_since_moon =
      (track_moons t ms none).rounds_since_moon := by
  refine ⟨?_, ?_, ?_, ?_, fun ts => rfl⟩ <;>
  · by_cases hms : ms = [] <;> simp [analyze_crashes, hms, Except.map]

/-!
Rate monotonicity helpers for the crash-rate chains.
-/

lemma countP_rate_mono (ms : List ℚ) (p q : ℚ → Bool)
    (h : ∀ m ∈ ms, p m = true → q m = true) :
    ((ms.countP p : ℚ) / ms.length * 100) ≤ ((ms.countP q : ℚ) / ms.length * 100) := by
  have hc : ((ms.countP p : ℕ) : ℚ) ≤ ((ms.countP q : ℕ) : ℚ) := by
    exact_mod_cast List.countP_mono_left h
  by_cases hn : ((ms.length : ℚ)) = 0
  · simp [hn]
  · have hpos : (0 : ℚ) < ms.length := lt_of_le_of_ne (by positivity) (Ne.symm hn)
    exact mul_le_mul_of_nonneg_right ((div_le_div_right hpos).mpr hc) (by norm_num)

lemma rate_chains_raw (t : CrashThresholds) (ms : List ℚ) (hv : ValidThresholds t) :
    roundDp 2 (((ms.countP fun m => decide (m < t.instant_crash)) : ℚ) / ms.length * 100) ≤
      roundDp 2 (((ms.countP fun m => decide (m < t.quick_crash)) : ℚ) / ms.length * 100) ∧
    roundDp 2 (((ms.countP fun m => decide (m < t.quick_crash)) : ℚ) / ms.length * 100) ≤
      roundDp 2 (((ms.countP fun m => decide (m < t.early_crash)) : ℚ) / ms.length * 100) ∧
    roundDp 2 (((ms.countP fun m => decide (t.mega_win ≤ m)) : ℚ) / ms.length * 100) ≤
      roundDp 2 (((ms.countP fun m => decide (t.huge_win ≤ m)) : ℚ) / ms.length * 100) ∧
    roundDp 2 (((ms.countP fun m => decide (t.huge_win ≤ m)) : ℚ) / ms.length * 100) ≤
      roundDp 2 (((ms.countP fun m => decide (t.big_win ≤ m)) : ℚ) / ms.length * 100) ∧
    roundDp 2 (((ms.countP fun m => decide (t.big_win ≤ m)) : ℚ) / ms.length * 100) ≤
      roundDp 2 (((ms.countP fun m => decide (t.great_round ≤ m)) : ℚ) / ms.length * 100) ∧
    roundDp 2 (((ms.countP fun m => decide (t.great_round ≤ m)) : ℚ) / ms.length * 100) ≤
      roundDp 2 (((ms.countP fun m => decide (t.good_round ≤ m)) : ℚ) / ms.length * 100) ∧
    ((ms.countP fun m => decide (t.moon ≤ m)) : ℚ) / ms.length * 100 ≤
      ((ms.countP fun m => decide (t.mega_win ≤ m)) : ℚ) / ms.length * 100 := by
  obtain ⟨h1, h2, h3, h4, h5, h6, h7, h8, h9⟩ := hv
  refine ⟨?_, ?_, ?_, ?_, ?_, ?_, ?_⟩ <;>
  first
  | (apply roundDp_mono
     apply countP_rate_mono
     intro m hm hpm
     simp only [decide_eq_true_eq] at hpm ⊢
     linarith)
  | (apply countP_rate_mono
     intro m hm hpm
     simp only [decide_eq_true_eq] at hpm ⊢
     linarith)

/-- C2 (amended): for every non-empty sequence and valid Threshold Set, the
crash-rate chain `instant ≤ quick ≤ early` and the win-rate chain
`mega ≤ huge ≤ big ≤ great ≤ good` hold on the rates as returned (all
rounded to 2 decimals), and the link `moon_rate ≤ mega_win_rate` holds for
the unrounded rates. The original claim also asserted the moon link on the
returned values, where it can fail because `moon_rate` is rounded to 4
decimals but `mega_win_rate` to 2. -/
theorem C2_rate_chains (t : CrashThresholds) (ms : List ℚ) (ts : Option (List Timestamp))
    (r : CrashAnalysis) (hv : ValidThresholds t) (hms : ms ≠ [])
    (hr : analyze_crashes t ms ts = .ok r) :
    r.instant_crash_rate ≤ r.quick_crash_rate ∧
    r.quick_crash_rate ≤ r.early_crash_rate ∧
    r.mega_win_rate ≤ r.huge_win_rate ∧
    r.huge_win_rate ≤ r.big_win_rate ∧
    r.big_win_rate ≤ r.great_round_rate ∧
    r.great_round_rate ≤ r.good_round_rate ∧
    ((ms.countP fun m => decide (t.moon ≤ m)) : ℚ) / ms.length * 100 ≤
      ((ms.countP fun m => decide (t.mega_win ≤ m)) : ℚ) / ms.length * 100 := by
  have main := rate_chains_raw t ms hv
  cases ts with
  | none =>
    simp only [analyze_crashes, if_neg hms, Except.ok.injEq] at hr
    subst hr
    exact main
  | some tss =>
    by_cases htss : tss = []
    · subst htss
      simp only [analyze_crashes, if_neg hms, if_true] at hr
      simp only [Except.ok.injEq] at hr
      subst hr
      exact main
    · simp only [analyze_crashes, if_neg hms, if_neg htss] at hr
      cases hsc : moonScanLoop t.moon tss 0 ms with
      | error e =>
        rw [hsc] at hr
        simp at hr
      | ok pr =>
        obtain ⟨lmt, rs⟩ := pr
        rw [hsc] at hr
        simp only [Except.ok.injEq] at hr
        subst hr
        exact main

/-- C2 witness: the amended chains instantiated on the singleton sequence
`[1]` with the default thresholds. -/
theorem C2_rate_chains_witness :
    ValidThresholds defaultThresholds ∧ ([(1 : ℚ)] ≠ []) ∧
    analyze_crashes defaultThresholds [1] none = .ok oneRoundAnalysis ∧
    (oneRoundAnalysis.instant_crash_rate ≤ oneRoundAnalysis.quick_crash_rate ∧
     oneRoundAnalysis.quick_crash_rate ≤ oneRoundAnalysis.early_crash_rate ∧
     oneRoundAnalysis.mega_win_rate ≤ oneRoundAnalysis.huge_win_rate ∧
     oneRoundAnalysis.huge_win_rate ≤ oneRoundAnalysis.big_win_rate ∧
     oneRoundAnalysis.big_win_rate ≤ oneRoundAnalysis.great_round_rate ∧
     oneRoundAnalysis.great_round_rate ≤ oneRoundAnalysis.good_round_rate ∧
     (([(1 : ℚ)].countP fun m => decide (defaultThresholds.moon ≤ m)) : ℚ) /
        ([(1 : ℚ)] : List ℚ).length * 100 ≤
       (([(1 : ℚ)].countP fun m => decide (defaultThresholds.mega_win ≤ m)) : ℚ) /
        ([(1 : ℚ)] : List ℚ).length * 100) := by
  have hok : analyze_crashes defaultThresholds [1] none = .ok oneRoundAnalysis := by
    unfold oneRoundAnalysis
    simp [analyze_crashes, Except.toOption]
  have hv : ValidThresholds defaultThresholds := by
    norm_num [ValidThresholds, defaultThresholds]
  exact ⟨hv, by simp, hok,
    C2_rate_chains defaultThresholds [1] none oneRoundAnalysis hv (by simp) hok⟩

/-- C2 counterexample: on `[2000, 1, 1]` with the default (valid)
thresholds both the moon count and the mega-win count are 1, so both raw
rates are 100/3 %; rounded as returned they become `moon_rate = 33.3333`
(4 decimals) and `mega_win_rate = 33.33` (2 decimals), so the returned
`moon_rate` exceeds the returned `mega_win_rate`, refuting the claimed
chain on the values as returned. -/
theorem C2_counterexample :
    ValidThresholds defaultThresholds ∧
    Except.map CrashAnalysis.moon_rate
        (analyze_crashes defaultThresholds [2000, 1, 1] none) = .ok (333333/10000) ∧
    Except.map CrashAnalysis.mega_win_rate
        (analyze_crashes defaultThresholds [2000, 1, 1] none) = .ok (3333/100) ∧
    ¬ ((333333 : ℚ)/10000 ≤ 3333/100) := by
  refine ⟨by norm_num [ValidThresholds, defaultThresholds], ?_, ?_, by norm_num⟩
  · have hc : List.countP (fun m => decide (defaultThresholds.moon ≤ m)) [2000, 1, 1] = 1 := by
      simp only [List.countP_cons, List.countP_nil, defaultThresholds]
      norm_num
    have h333 : roundDp 4 (((3 : ℚ))⁻¹ * 100) = 333333/10000 := by
      rw [show (((3 : ℚ))⁻¹ * 100) = 100/3 by ring,
        roundDp_eq_of_lt 4 (f := 333333) (by norm_num) (by norm_num)]
      norm_num
    simp [analyze_crashes, Except.map, hc, h333]
  · have hc : List.countP (fun m => decide (defaultThresholds.mega_win ≤ m)) [2000, 1, 1] = 1 := by
      simp only [List.countP_cons, List.countP_nil, defaultThresholds]
      norm_num
    have h333 : roundDp 2 (((3 : ℚ))⁻¹ * 100) = 3333/100 := by
      rw [show (((3 : ℚ))⁻¹ * 100) = 100/3 by ring,
        roundDp_eq_of_lt 2 (f := 3333) (by norm_num) (by norm_num)]
      norm_num
    simp [analyze_crashes, Except.map, hc, h333]

/-- C9: `analyze_hourly_patterns` returns as best hours the first three
entries of the hourly statistics sorted by mean multiplier descending (all
of them when fewer than three hours have data), and as worst hours the last
three of that ordering reversed — empty when fewer than three hours have
data; the sorted list is a permutation of the per-hour statistics and is
pairwise descending in mean. -/
theorem C9_hourly_best_worst (rounds : List (ℚ × Timestamp)) :
    (analyze_hourly_patterns rounds).1 = (sorted_hourly_stats rounds).take 3 ∧
    (analyze_hourly_patterns rounds).2 =
      (if 3 ≤ (sorted_hourly_stats rounds).length then
        ((sorted_hourly_stats rounds).drop ((sorted_hourly_stats rounds).length - 3)).reverse
      else []) ∧
    (sorted_hourly_stats rounds).Perm (hourly_stats rounds) ∧
    (sorted_hourly_stats rounds).Pairwise fun a b => b.average ≤ a.average := by
  refine ⟨?_, rfl, ?_, ?_⟩
  · simp only [analyze_hourly_patterns]
    split_ifs with h
    · rfl
    · exact (List.take_of_length_le (by omega)).symm
  · exact List.mergeSort_perm _ _
  · have hs := @List.sorted_mergeSort HourStat
      (fun a b : HourStat => decide (b.average ≤ a.average))
      (fun a b c hab hbc => by
        simp only [decide_eq_true_eq] at hab hbc ⊢
        exact le_trans hbc hab)
      (fun a b => by
        simp only [Bool.or_eq_true, decide_eq_true_eq]
        exact le_total b.average a.average)
      (hourly_stats rounds)
    exact hs.imp fun h => by simpa using h

/-!
Characterization of the moon scans, used for the timestamp-length claim.
-/

lemma moonIndicesAux_head (moon : ℚ) (ms : List ℚ) (i : ℕ) :
    (moonIndicesAux moon i ms).head? = ms.findIdx? (fun m => decide (moon ≤ m)) i := by
  induction ms generalizing i with
  | nil => rfl
  | cons m rest ih =>
    by_cases h : moon ≤ m <;>
      simp [moonIndicesAux, h, List.findIdx?_cons, ih]

lemma moonScanLoop_isOk (moon : ℚ) (tss : List Timestamp) (ms : List ℚ) (i : ℕ) :
    (moonScanLoop moon tss i ms).isOk = false ↔
      ∃ j, (moonIndicesAux moon i ms).head? = some j ∧ tss.length ≤ j := by
  induction ms generalizing i with
  | nil => simp [moonScanLoop, moonIndicesAux, Except.isOk, Except.toBool]
  | cons m rest ih =>
    by_cases h : moon ≤ m
    · simp only [moonScanLoop, moonIndicesAux, if_pos h, List.head?_cons]
      cases hj : tss[i]? with
      | some tsv =>
        have hlt : i < tss.length := by
          by_contra hge
          rw [List.getElem?_eq_none (not_lt.mp hge)] at hj
          cases hj
        simp only [Except.isOk, Except.toBool]
        constructor
        · intro hcon
          cases hcon
        · rintro ⟨j, hj', hle⟩
          cases hj'
          omega
      | none =>
        have hge : tss.length ≤ i := by
          by_contra hlt
          push_neg at hlt
          rw [List.getElem?_eq_getElem hlt] at hj
          cases hj
        simp only [Except.isOk, Except.toBool]
        exact ⟨fun _ => ⟨i, rfl, hge⟩, fun _ => trivial⟩
    · simp only [moonScanLoop, moonIndicesAux, if_neg h]
      exact ih (i + 1)

/-- C8 (amended): neither operation validates a short timestamp list.
`track_moons` is total and silently returns `last_moon_time = None` whenever
the most recent moon index falls outside the supplied timestamps, and
`analyze_crashes` fails — with an unhandled index error, not a validation
error — exactly when the sequence is non-empty, the timestamp list is
non-empty, and the first moon index is at or beyond its length; in every
other mismatched case it silently computes a result. -/
theorem C8_no_length_validation (t : CrashThresholds) (ms : List ℚ) (tss : List Timestamp) :
    (∀ i, firstMoonIdx t.moon ms = some i → tss.length ≤ i →
      (track_moons t ms (some tss)).last_moon_time = none) ∧
    ((analyze_crashes t ms (some tss)).isOk = false ↔
      (ms ≠ [] ∧ tss ≠ [] ∧ ∃ i, firstMoonIdx t.moon ms = some i ∧ tss.length ≤ i)) := by
  have hhead : (moon_indices t.moon ms).head? = firstMoonIdx t.moon ms :=
    moonIndicesAux_head t.moon ms 0
  constructor
  · intro i hi hlen
    simp only [track_moons]
    rw [hhead, hi]
    have hcon : ¬ (tss ≠ [] ∧ i < tss.length) := fun hcon => absurd hcon.2 (not_lt.mpr hlen)
    simp [hcon]
  · by_cases hms : ms = []
    · subst hms
      simp [analyze_crashes, Except.isOk, Except.toBool]
    · by_cases htss : tss = []
      · subst htss
        simp [analyze_crashes, hms, Except.isOk, Except.toBool]
      · simp only [analyze_crashes, if_neg hms, if_neg htss]
        have hchar := moonScanLoop_isOk t.moon tss ms 0
        cases hsc : moonScanLoop t.moon tss 0 ms with
        | error e =>
          rw [hsc] at hchar
          simp only [Except.isOk, Except.toBool, eq_self_iff_true, true_iff] at hchar
          obtain ⟨j, hj, hle⟩ := hchar
          rw [show moonIndicesAux t.moon 0 ms = moon_indices t.moon ms from rfl, hhead] at hj
          simp only [hsc, Except.isOk, Except.toBool]
          exact ⟨fun _ => ⟨hms, htss, j, hj, hle⟩, fun _ => trivial⟩
        | ok pr =>
          obtain ⟨a, b⟩ := pr
          rw [hsc] at hchar
          simp only [Except.isOk, Except.toBool] at hchar
          have hnot : ¬ ∃ j, (moonIndicesAux t.moon 0 ms).head? = some j ∧ tss.length ≤ j := by
            intro hex
            exact absurd (hchar.mpr hex) (by simp)
          simp only [hsc, Except.isOk, Except.toBool]
          constructor
          · intro hcon
            cases hcon
          · rintro ⟨-, -, j, hj, hle⟩
            rw [show moonIndicesAux t.moon 0 ms = moon_indices t.moon ms from rfl, hhead] at hnot
            exact absurd ⟨j, hj, hle⟩ hnot

/-- C8 witness: at `[1, 2000]` with a single timestamp the first moon index
is 1, beyond the timestamp list, and `track_moons` silently returns a null
`last_moon_time`. -/
theorem C8_no_length_validation_witness :
    firstMoonIdx defaultThresholds.moon [1, 2000] = some 1 ∧
    ([(⟨0⟩ : Timestamp)] : List Timestamp).length ≤ 1 ∧
    (track_moons defaultThresholds [1, 2000] (some [⟨0⟩])).last_moon_time = none := by
  have h1 : firstMoonIdx defaultThresholds.moon [1, 2000] = some 1 := by
    have ha : ¬ defaultThresholds.moon ≤ (1 : ℚ) := by norm_num [defaultThresholds]
    have hb : defaultThresholds.moon ≤ (2000 : ℚ) := by norm_num [defaultThresholds]
    simp [firstMoonIdx, List.findIdx?_cons, ha, hb]
  exact ⟨h1, by simp,
    (C8_no_length_validation defaultThresholds [1, 2000] [⟨0⟩]).1 1 h1 (by simp)⟩

/-- C8 counterexample: with `[1, 2]` (no moons) and a single timestamp —
shorter than the two multipliers — `analyze_crashes` succeeds and
`track_moons` returns a complete fragment: neither fails with a validation
error. -/
theorem C8_counterexample :
    ([(⟨0⟩ : Timestamp)] : List Timestamp).length < ([1, 2] : List ℚ).length ∧
    (analyze_crashes defaultThresholds [1, 2] (some [⟨0⟩])).isOk = true ∧
    track_moons defaultThresholds [1, 2] (some [⟨0⟩]) = ⟨0, none, none, 2, none, 0⟩ := by
  have ha : ¬ defaultThresholds.moon ≤ (1 : ℚ) := by norm_num [defaultThresholds]
  have hb : ¬ defaultThresholds.moon ≤ (2 : ℚ) := by norm_num [defaultThresholds]
  refine ⟨by simp, ?_, ?_⟩
  · simp [analyze_crashes, moonScanLoop, ha, hb, Except.isOk, Except.toBool]
  · simp [track_moons, moon_indices, moonIndicesAux, ha, hb, roundDp_zero]

end SpacexyTracker
